import Mathlib

/-!
Shallow embedding of the `rust-concurrency-workshop` parallel-batch-compute
engine (`src/part-5/src/lib.rs`, `src/common/src/lib.rs`, `src/part-2/src/main.rs`)
and of the two pool-based scheduling strategies that the specification
describes but the repository leaves unimplemented
(`src/part-6/src/main.rs` has `rayon_parallel_calculate` as `todo!()`).

Machine integers: the payload of `Data` is a Rust `u64`; it is modelled as a
`Nat` and the multiplication inside `calculate` wraps explicitly modulo 2^64,
matching Rust release-mode (wrapping) semantics.  The `thread::sleep` inside
`calculate` has no effect on any returned value and is therefore dropped from
the value-level embedding.

Concurrency: thread spawning is modelled by building a list of thunks
(handles) and joining them; the nondeterministic claim order of the
work-stealing queue is modelled by an explicit claim-order parameter ranging
over permutations of the indexed work items; the mpsc channel of part-2 is
modelled as a small state machine driven by an arbitrary scheduler.
-/

/-- Modulus of Rust's `u64` arithmetic, 2^64. -/
def U64_MOD : Nat := 2 ^ 64

/-- Embeds `pub struct Data(pub u64)` from `src/part-5/src/lib.rs`. -/
structure Data where
  val : Nat
deriving DecidableEq, Repr

/-- Embeds `pub struct ComputationResult(pub u64)` from `src/part-5/src/lib.rs`. -/
structure ComputationResult where
  val : Nat
deriving DecidableEq, Repr

/-- Embeds `fn calculate(datum: Data) -> ComputationResult` from
`src/part-5/src/lib.rs` lines 10-17: sleeps for a simulated compute time
(irrelevant to the value) and returns `ComputationResult(datum.0 * 2)`,
where the `u64` multiplication wraps modulo 2^64. -/
def calculate (datum : Data) : ComputationResult :=
  ComputationResult.mk (datum.val * 2 % U64_MOD)

/-- Embeds `pub fn serial_calculate` from `src/part-5/src/lib.rs` lines 19-22:
`data.into_iter().map(calculate).collect()`. -/
def serial_calculate (data : List Data) : List ComputationResult :=
  data.map calculate

/-- Handle list built by the `for datum in data` loop of
`parallel_calculate` in `src/part-5/src/lib.rs` lines 39-43: one spawned
worker (modelled as a thunk) per datum. -/
def naive_handles (data : List Data) : List (Unit → ComputationResult) :=
  data.map (fun datum => fun _ => calculate datum)

/-- Embeds `pub fn parallel_calculate` of `src/part-5/src/lib.rs` lines 24-52
(the NaiveSpawn strategy): spawn one worker per datum, then join the
handles in spawn order and collect the results. -/
def naive_parallel_calculate (data : List Data) : List ComputationResult :=
  (naive_handles data).map (fun h => h ())

theorem naive_parallel_eq_serial (data : List Data) :
    naive_parallel_calculate data = serial_calculate data := by
  simp [naive_parallel_calculate, naive_handles, serial_calculate]

/-- Work-distribution strategies named by the specification
(§2, §6); only NaiveSpawn is implemented in `src/part-5/src/lib.rs`. -/
inductive Strategy where
  | NaiveSpawn
  | FixedPoolChunked
  | WorkStealing
deriving DecidableEq, Repr

/-- Modelled from the spec: the FixedPoolChunked partition sizes
(`src/part-6`'s pool implementation is absent, `rayon_parallel_calculate`
is `todo!()`).  Splitting `n` items into `k` contiguous chunks of
near-equal size (sizes differ by at most one): the first `n % k` chunks
get `n / k + 1` items, the rest get `n / k`. -/
def chunkSizes (k n : Nat) : List Nat :=
  (List.range k).map (fun i => n / k + if i < n % k then 1 else 0)

/-- Split a list into consecutive pieces of the given sizes. -/
def splitSizes : List Nat → List Data → List (List Data)
  | [], _ => []
  | s :: rest, xs => xs.take s :: splitSizes rest (xs.drop s)

/-- Modelled from the spec (§4.3): the chunks handed to the
FixedPoolChunked workers — `min(P, |D|)` contiguous near-equal chunks,
one long-lived worker per chunk. -/
def fixed_pool_chunks (P : Nat) (data : List Data) : List (List Data) :=
  splitSizes (chunkSizes (min P data.length) data.length) data

/-- Modelled from the spec (§4.3, §4.5): FixedPoolChunked — each worker
maps `calculate` over its own contiguous chunk sequentially and writes
results at the items' original indices; the collector concatenates the
chunk results in chunk order, which is original input order. -/
def fixed_pool_calculate (P : Nat) (data : List Data) : List ComputationResult :=
  ((fixed_pool_chunks P data).map (List.map calculate)).flatten

/-- Modelled from the spec (§3 WorkItem): each datum paired with its
original position, starting at index `i`. -/
def tagFrom (i : Nat) : List Data → List (Nat × Data)
  | [] => []
  | d :: rest => (i, d) :: tagFrom (i + 1) rest

/-- Modelled from the spec (§3 TaskQueue): the work items of a batch, in
input order, as initially placed in the shared queue. -/
def workItems (data : List Data) : List (Nat × Data) :=
  tagFrom 0 data

/-- Modelled from the spec (§3 ResultSlot, §4.4): workers repeatedly claim
work items — `order` is the sequence in which items are claimed and
completed across all workers — compute each, and write the result into
the ResultSlot at the item's original index. -/
def runClaims (order : List (Nat × Data))
    (slots : List (Option ComputationResult)) : List (Option ComputationResult) :=
  order.foldl (fun s it => s.set it.1 (some (calculate it.2))) slots

/-- Modelled from the spec (§4.5 ResultCollector): check completeness —
every slot filled — and return the plain ordered sequence; a batch with an
empty slot is a failure. -/
def collectSlots : List (Option ComputationResult) → Option (List ComputationResult)
  | [] => some []
  | none :: _ => none
  | some r :: rest => (collectSlots rest).map (r :: ·)

/-- Modelled from the spec (§4.4): WorkStealing over a batch of `n` slots,
with the work items claimed in the order given. -/
def work_stealing_calculate (order : List (Nat × Data)) (n : Nat) :
    Option (List ComputationResult) :=
  collectSlots (runClaims order (List.replicate n none))

/-- Modelled from the spec: `parallel_calculate(data, strategy)` of the API surface (§6);
`P` is the hardware parallelism reported for the machine and `order` the
claim order realised by the work-stealing run (both irrelevant to
NaiveSpawn, the only strategy in `src/part-5/src/lib.rs`).  NaiveSpawn
cannot fail once every worker returns, so it is wrapped in `some`;
WorkStealing reports `none` if a slot were left unfilled. -/
def parallel_calculate (P : Nat) (order : List (Nat × Data))
    (data : List Data) : Strategy → Option (List ComputationResult)
  | .NaiveSpawn => some (naive_parallel_calculate data)
  | .FixedPoolChunked => some (fixed_pool_calculate P data)
  | .WorkStealing => work_stealing_calculate order data.length

/-- Workers spawned by each strategy: NaiveSpawn spawns one handle per
datum (`src/part-5/src/lib.rs` lines 39-43); the pool strategies spawn one
worker per chunk, resp. `min(P, |D|)` pool workers (spec §4.3, §4.4, §5). -/
def workers_spawned (P : Nat) (data : List Data) : Strategy → Nat
  | .NaiveSpawn => (naive_handles data).length
  | .FixedPoolChunked => (fixed_pool_chunks P data).length
  | .WorkStealing => min P data.length

theorem splitSizes_length (ss : List Nat) (xs : List Data) :
    (splitSizes ss xs).length = ss.length := by
  induction ss generalizing xs with
  | nil => rfl
  | cons s rest ih => simp [splitSizes, ih]

theorem splitSizes_flatten (ss : List Nat) (xs : List Data) :
    (splitSizes ss xs).flatten = xs.take ss.sum := by
  induction ss generalizing xs with
  | nil => simp [splitSizes]
  | cons s rest ih =>
    simp only [splitSizes, List.flatten_cons, ih, List.sum_cons]
    rw [List.take_add, List.take_drop]

theorem chunkSizes_length (k n : Nat) : (chunkSizes k n).length = k := by
  simp [chunkSizes]

theorem sum_range_add_ite (a m : Nat) :
    ∀ k, ((List.range k).map (fun i => a + if i < m then 1 else 0)).sum
      = k * a + min k m := by
  intro k
  induction k with
  | zero => simp
  | succ k ih =>
    rw [List.range_succ, List.map_append, List.sum_append, ih, Nat.succ_mul]
    by_cases h : k < m <;> simp [h] <;> omega

theorem chunkSizes_sum (k n : Nat) (hk : 0 < k) : (chunkSizes k n).sum = n := by
  unfold chunkSizes
  rw [sum_range_add_ite]
  have hmod : n % k < k := Nat.mod_lt _ hk
  have hmin : min k (n % k) = n % k := by omega
  rw [hmin]
  have := Nat.div_add_mod n k
  omega

theorem fixed_pool_chunks_length (P : Nat) (data : List Data) :
    (fixed_pool_chunks P data).length = min P data.length := by
  simp [fixed_pool_chunks, splitSizes_length, chunkSizes_length]

theorem fixed_pool_chunks_flatten (P : Nat) (data : List Data) (hP : 1 ≤ P) :
    (fixed_pool_chunks P data).flatten = data := by
  unfold fixed_pool_chunks
  rcases Nat.eq_zero_or_pos data.length with h0 | hpos
  · have : data = [] := List.length_eq_zero.mp h0
    subst this
    simp [chunkSizes, splitSizes]
  · have hk : 0 < min P data.length := by omega
    rw [splitSizes_flatten, chunkSizes_sum _ _ hk, List.take_length]

theorem fixed_pool_eq_serial (P : Nat) (data : List Data) (hP : 1 ≤ P) :
    fixed_pool_calculate P data = serial_calculate data := by
  unfold fixed_pool_calculate serial_calculate
  rw [← List.map_flatten, fixed_pool_chunks_flatten P data hP]

theorem runClaims_length (order : List (Nat × Data))
    (slots : List (Option ComputationResult)) :
    (runClaims order slots).length = slots.length := by
  induction order generalizing slots with
  | nil => rfl
  | cons it rest ih =>
    show (runClaims rest (slots.set it.1 (some (calculate it.2)))).length = _
    rw [ih, List.length_set]

theorem runClaims_getElem?_notmem (order : List (Nat × Data))
    (slots : List (Option ComputationResult)) (j : Nat)
    (hj : j ∉ order.map Prod.fst) :
    (runClaims order slots)[j]? = slots[j]? := by
  induction order generalizing slots with
  | nil => rfl
  | cons it rest ih =>
    simp only [List.map_cons, List.mem_cons, not_or] at hj
    show (runClaims rest (slots.set it.1 (some (calculate it.2))))[j]? = slots[j]?
    rw [ih _ hj.2, List.getElem?_set_ne (fun h => hj.1 h.symm)]

theorem runClaims_getElem?_mem (order : List (Nat × Data))
    (slots : List (Option ComputationResult)) (j : Nat) (d : Data)
    (hnd : (order.map Prod.fst).Nodup) (hmem : (j, d) ∈ order) :
    (runClaims order slots)[j]? = (slots.set j (some (calculate d)))[j]? := by
  induction order generalizing slots with
  | nil => cases hmem
  | cons it rest ih =>
    simp only [List.map_cons, List.nodup_cons] at hnd
    rcases List.mem_cons.mp hmem with heq | hrest
    · subst heq
      have hj : j ∉ rest.map Prod.fst := hnd.1
      show (runClaims rest (slots.set j (some (calculate d))))[j]? = _
      rw [runClaims_getElem?_notmem rest _ j hj]
    · have hne : it.1 ≠ j := by
        intro h
        exact hnd.1 (h ▸ List.mem_map_of_mem Prod.fst hrest)
      show (runClaims rest (slots.set it.1 (some (calculate it.2))))[j]? = _
      rw [ih _ hnd.2 hrest]
      by_cases hlen : j < slots.length
      · rw [List.getElem?_set_self (by rw [List.length_set]; exact hlen),
          List.getElem?_set_self hlen]
      · push_neg at hlen
        rw [List.getElem?_len_le (by rw [List.length_set, List.length_set]; exact hlen),
          List.getElem?_len_le (by rw [List.length_set]; exact hlen)]

theorem tagFrom_map_fst (data : List Data) :
    ∀ i, (tagFrom i data).map Prod.fst = List.range' i data.length := by
  induction data with
  | nil => intro i; rfl
  | cons d rest ih =>
    intro i
    simp only [tagFrom, List.map_cons, List.length_cons, List.range'_succ, ih]

theorem mem_tagFrom (data : List Data) :
    ∀ i j d, ((j, d) ∈ tagFrom i data ↔ i ≤ j ∧ data[j - i]? = some d) := by
  induction data with
  | nil => intro i j d; simp [tagFrom]
  | cons x rest ih =>
    intro i j d
    simp only [tagFrom, List.mem_cons, Prod.mk.injEq, ih]
    constructor
    · rintro (⟨rfl, rfl⟩ | ⟨hle, hget⟩)
      · simp
      · refine ⟨by omega, ?_⟩
        have : j - i = (j - (i + 1)) + 1 := by omega
        rw [this, List.getElem?_cons_succ]
        exact hget
    · rintro ⟨hle, hget⟩
      rcases Nat.eq_or_lt_of_le hle with rfl | hlt
      · left
        simp only [Nat.sub_self, List.getElem?_cons_zero, Option.some.injEq] at hget
        exact ⟨rfl, hget.symm⟩
      · right
        refine ⟨by omega, ?_⟩
        have : j - i = (j - (i + 1)) + 1 := by omega
        rw [this, List.getElem?_cons_succ] at hget
        exact hget

theorem mem_workItems (data : List Data) (j : Nat) (d : Data) :
    (j, d) ∈ workItems data ↔ data[j]? = some d := by
  rw [workItems, mem_tagFrom]
  simp

theorem workItems_map_fst_nodup (data : List Data) :
    ((workItems data).map Prod.fst).Nodup := by
  rw [workItems, tagFrom_map_fst]
  exact List.nodup_range' 0 data.length

theorem collectSlots_map_some (xs : List ComputationResult) :
    collectSlots (xs.map some) = some xs := by
  induction xs with
  | nil => rfl
  | cons x rest ih => simp [collectSlots, ih]

theorem work_stealing_slots (data : List Data) (order : List (Nat × Data))
    (hperm : order.Perm (workItems data)) :
    runClaims order (List.replicate data.length none)
      = data.map (fun d => some (calculate d)) := by
  have hnd : (order.map Prod.fst).Nodup :=
    ((hperm.map Prod.fst).nodup_iff).mpr (workItems_map_fst_nodup data)
  apply List.ext_getElem?
  intro j
  by_cases hj : j < data.length
  · obtain ⟨d, hd⟩ : ∃ d, data[j]? = some d := by
      rcases List.getElem?_eq_some_iff.mpr ⟨hj, rfl⟩ with h
      exact ⟨data[j], h⟩
    have hmem : (j, d) ∈ order :=
      hperm.mem_iff.mpr ((mem_workItems data j d).mpr hd)
    rw [runClaims_getElem?_mem order _ j d hnd hmem,
      List.getElem?_set_self (by simpa using hj), List.getElem?_map,
      hd]
    rfl
  · push_neg at hj
    rw [List.getElem?_len_le (by rw [runClaims_length]; simpa using hj),
      List.getElem?_len_le (by simpa using hj)]

theorem work_stealing_eq_serial (data : List Data) (order : List (Nat × Data))
    (hperm : order.Perm (workItems data)) :
    work_stealing_calculate order data.length = some (serial_calculate data) := by
  rw [work_stealing_calculate, work_stealing_slots data order hperm]
  have : data.map (fun d => some (calculate d)) = (data.map calculate).map some := by
    rw [List.map_map]
    rfl
  rw [this, collectSlots_map_some]
  rfl

theorem runClaims_nil_slots (order : List (Nat × Data)) :
    runClaims order [] = [] := by
  induction order with
  | nil => rfl
  | cons it rest ih =>
    show runClaims rest (List.set [] it.1 (some (calculate it.2))) = []
    simpa using ih

/-- Outcome of the `std::thread::available_parallelism()` query as observed
by the harness: `ok units` carries the `NonZeroUsize` count of available
execution units, `err` models the query returning `Err`. -/
inductive ParallelismQuery where
  | ok (units : Nat)
  | err
deriving DecidableEq, Repr

/-- Embeds `pub fn ensure_can_run_parallel_test` from
`src/common/src/lib.rs` lines 4-12: matches on the parallelism query,
panicking (modelled as `Except.error` carrying the panic message) when the
reported count is below `two = 2` or when the query itself errs, and
returning normally otherwise. -/
def ensure_can_run_parallel_test : ParallelismQuery → Except String Unit
  | .ok x =>
    if x < 2 then Except.error "Please run on a system with more than 1 core"
    else Except.ok ()
  | .err => Except.error "Unexpected error. Does your system even have cores?"

/-- Handle outcomes for a batch whose per-item computation may fail: one
outcome per datum, in spawn order; `none` models a worker panic, observed
as `Err` by `handle.join()` in `src/part-5/src/lib.rs` line 49. -/
def fallible_handles (f : Data → Option ComputationResult) (data : List Data) :
    List (Option ComputationResult) :=
  data.map f

/-- Embeds the failure path of `parallel_calculate`
(`src/part-5/src/lib.rs` lines 49-51): the collect loop joins each handle
and `unwrap`s it, so the first failed worker aborts the whole batch with no
result sequence; `collectSlots` is exactly that sequential join-and-unwrap
collection. -/
def parallel_calculate_fallible (f : Data → Option ComputationResult)
    (data : List Data) : Option (List ComputationResult) :=
  collectSlots (fallible_handles f data)

theorem collectSlots_eq_none_iff (l : List (Option ComputationResult)) :
    collectSlots l = none ↔ none ∈ l := by
  induction l with
  | nil => simp [collectSlots]
  | cons x rest ih =>
    cases x with
    | none => simp [collectSlots]
    | some r => simp [collectSlots, ih]

/-- Values sent by the producer thread of `across_the_border`
(`src/part-2/src/main.rs` lines 9-13): the loop
`(0..10).for_each(|x| tx.send(x).expect(..))` sends 0,1,...,9 as `i32`. -/
def producerSends : List Int :=
  (List.range 10).map (fun n => (n : Int))

/-- State of the part-2 single-producer mpsc channel demo: values the
producer has not yet sent, values buffered inside the channel (FIFO),
whether the sender has been dropped (channel closed), values the consumer
has received so far, and whether the consumer's `recv` has returned `Err`
(loop exited). -/
structure ChanState where
  pending : List Int
  buffered : List Int
  closed : Bool
  received : List Int
  done : Bool
deriving DecidableEq, Repr

/-- Initial state of `across_the_border`: the spawned thread is about to
send `0..10`, the channel is open and empty, nothing received. -/
def chanInit : ChanState :=
  ChanState.mk producerSends [] false [] false

/-- One step of the producer thread: send the next value into the channel
(FIFO enqueue); once the `for_each` loop is exhausted the thread ends and
`tx` is dropped, closing the channel. -/
def producerStep (s : ChanState) : ChanState :=
  match s.pending with
  | x :: rest => { s with pending := rest, buffered := s.buffered ++ [x] }
  | [] => { s with closed := true }

/-- One step of the consuming loop `while let Ok(x) = receiver.recv()`
(`src/part-2/src/main.rs` lines 17-21): `recv` dequeues the oldest buffered
value; on an empty buffer it returns `Err` if the channel is closed (the
loop exits), and otherwise blocks — it never spuriously reports
end-of-stream, so the consumer does not poll. -/
def consumerStep (s : ChanState) : ChanState :=
  if s.done then s
  else
    match s.buffered with
    | x :: rest => { s with buffered := rest, received := s.received ++ [x] }
    | [] => if s.closed then { s with done := true } else s

/-- One scheduler step of the two-thread system: `true` runs the producer,
`false` runs the consumer. -/
def chanStep (st : ChanState) (b : Bool) : ChanState :=
  if b then producerStep st else consumerStep st

/-- Runs the channel demo under an arbitrary thread interleaving. -/
def runChannel (sched : List Bool) : ChanState :=
  sched.foldl chanStep chanInit

/-- Channel-demo invariant: no value is lost or duplicated (received,
buffered and unsent values always concatenate, in order, to the full send
sequence), the channel only closes after every value is sent, and the
consumer only observes `Err` on a drained, closed channel. -/
def ChanInv (s : ChanState) : Prop :=
  s.received ++ s.buffered ++ s.pending = producerSends
    ∧ (s.closed = true → s.pending = [])
    ∧ (s.done = true → s.buffered = [] ∧ s.closed = true)

theorem chanInv_producerStep {s : ChanState} (h : ChanInv s) :
    ChanInv (producerStep s) := by
  obtain ⟨pend, buf, cl, recv, dn⟩ := s
  obtain ⟨h1, h2, h3⟩ := h
  cases pend with
  | nil =>
    exact ⟨by simpa [producerStep] using h1, fun _ => rfl, fun hdn => ⟨(h3 hdn).1, rfl⟩⟩
  | cons x rest =>
    refine ⟨by simpa [producerStep, List.append_assoc] using h1, ?_, ?_⟩
    · intro hc
      exact (List.cons_ne_nil x rest (h2 hc)).elim
    · intro hdn
      exact (List.cons_ne_nil x rest (h2 (h3 hdn).2)).elim

theorem chanInv_consumerStep {s : ChanState} (h : ChanInv s) :
    ChanInv (consumerStep s) := by
  obtain ⟨pend, buf, cl, recv, dn⟩ := s
  obtain ⟨h1, h2, h3⟩ := h
  cases dn with
  | true => exact ⟨h1, h2, h3⟩
  | false =>
    cases hb : buf with
    | cons x rest =>
      subst hb
      refine ⟨by simpa [consumerStep, List.append_assoc] using h1, h2, ?_⟩
      intro hdn
      simp only [consumerStep] at hdn
      exact absurd hdn (by simp)
    | nil =>
      subst hb
      cases cl with
      | true => exact ⟨by simpa [consumerStep] using h1, fun _ => h2 rfl, fun _ => ⟨rfl, rfl⟩⟩
      | false => exact ⟨h1, h2, h3⟩

theorem chanInv_foldl (sched : List Bool) :
    ∀ s : ChanState, ChanInv s → ChanInv (sched.foldl chanStep s) := by
  induction sched with
  | nil => intro s hs; exact hs
  | cons b rest ih =>
    intro s hs
    apply ih
    unfold chanStep
    by_cases hbb : b
    · simpa [hbb] using chanInv_producerStep hs
    · simpa [hbb] using chanInv_consumerStep hs

theorem chanInit_inv : ChanInv chanInit := by
  refine ⟨rfl, ?_, ?_⟩ <;> intro h <;> simp [chanInit] at h

/-- C1: for every dataset, every machine parallelism `P ≥ 1`, every claim
order realisable by the work-stealing queue, and every strategy,
`parallel_calculate` succeeds and returns exactly the sequence
`serial_calculate` returns — same length and equal element at every
position. -/
theorem parallel_calculate_eq_serial_calculate
    (P : Nat) (order : List (Nat × Data)) (data : List Data) (s : Strategy)
    (hP : 1 ≤ P) (horder : order.Perm (workItems data)) :
    parallel_calculate P order data s = some (serial_calculate data) := by
  cases s with
  | NaiveSpawn =>
    show some (naive_parallel_calculate data) = _
    rw [naive_parallel_eq_serial]
  | FixedPoolChunked =>
    show some (fixed_pool_calculate P data) = _
    rw [fixed_pool_eq_serial P data hP]
  | WorkStealing => exact work_stealing_eq_serial data order horder

theorem parallel_calculate_eq_serial_calculate_witness :
    (1 ≤ 2
        ∧ List.Perm [(2, Data.mk 3), (0, Data.mk 1), (1, Data.mk 2)]
            (workItems [Data.mk 1, Data.mk 2, Data.mk 3]))
      ∧ parallel_calculate 2 [(2, Data.mk 3), (0, Data.mk 1), (1, Data.mk 2)]
          [Data.mk 1, Data.mk 2, Data.mk 3] Strategy.WorkStealing
        = some (serial_calculate [Data.mk 1, Data.mk 2, Data.mk 3]) :=
  ⟨⟨by decide, by decide⟩,
    parallel_calculate_eq_serial_calculate 2 _ _ _ (by decide) (by decide)⟩

/-- C2 counterexample: at the u64 payload `n = 2^63` the multiplication
`datum.0 * 2` in `calculate` wraps, so the result is `ComputationResult 0`,
not the mathematical double `2^64`. -/
theorem calculate_overflow_counterexample :
    calculate (Data.mk (2 ^ 63)) ≠ ComputationResult.mk (2 ^ 63 * 2)
      ∧ calculate (Data.mk (2 ^ 63)) = ComputationResult.mk 0 := by
  constructor
  · intro h
    have := congrArg ComputationResult.val h
    simp [calculate, U64_MOD] at this
  · simp [calculate, U64_MOD]

/-- C2 (amended): `calculate` always returns normally, and for every
payload `n` it returns `ComputationResult (n * 2 mod 2^64)` — which equals
the exact double `n * 2` precisely when the doubling does not overflow u64
(`n * 2 < 2^64`, i.e. `n < 2^63`). -/
theorem calculate_doubles_mod_u64 (n : Nat) :
    calculate (Data.mk n) = ComputationResult.mk (n * 2 % U64_MOD)
      ∧ (n * 2 < U64_MOD → calculate (Data.mk n) = ComputationResult.mk (n * 2)) := by
  refine ⟨rfl, fun h => ?_⟩
  simp [calculate, Nat.mod_eq_of_lt h]

theorem calculate_doubles_mod_u64_witness :
    21 * 2 < U64_MOD ∧ calculate (Data.mk 21) = ComputationResult.mk 42 :=
  ⟨by decide, (calculate_doubles_mod_u64 21).2 (by decide)⟩

/-- C3: for the FixedPoolChunked and WorkStealing strategies, the number of
workers spawned for a batch equals `min(available_parallelism(), |D|)`. -/
theorem pool_strategies_spawn_min_workers (P : Nat) (data : List Data) :
    workers_spawned P data Strategy.FixedPoolChunked = min P data.length
      ∧ workers_spawned P data Strategy.WorkStealing = min P data.length :=
  ⟨fixed_pool_chunks_length P data, rfl⟩

/-- C5: on the empty dataset every strategy returns the empty result
sequence, and no worker is spawned. -/
theorem empty_dataset_returns_empty_no_workers (P : Nat)
    (order : List (Nat × Data)) (s : Strategy) :
    parallel_calculate P order [] s = some [] ∧ workers_spawned P [] s = 0 := by
  cases s with
  | NaiveSpawn =>
    exact ⟨rfl, rfl⟩
  | FixedPoolChunked =>
    constructor
    · show some (fixed_pool_calculate P []) = some []
      simp [fixed_pool_calculate, fixed_pool_chunks, chunkSizes, splitSizes]
    · show (fixed_pool_chunks P []).length = 0
      simp [fixed_pool_chunks_length]
  | WorkStealing =>
    constructor
    · show work_stealing_calculate order 0 = some []
      rw [work_stealing_calculate]
      show collectSlots (runClaims order []) = some []
      rw [runClaims_nil_slots]
      rfl
    · show min P 0 = 0
      simp

/-- C6: the NaiveSpawn strategy spawns exactly one worker per datum — the
number of workers spawned equals the length of the dataset. -/
theorem naive_spawn_spawns_one_worker_per_datum (P : Nat) (data : List Data) :
    workers_spawned P data Strategy.NaiveSpawn = data.length := by
  show (naive_handles data).length = data.length
  simp [naive_handles]

/-- C7: the hardware-parallelism precondition check fails — with a nonempty,
descriptive panic message — exactly when the query errs or reports fewer
than 2 available execution units, and returns normally (does not fail)
whenever at least 2 units are reported. -/
theorem ensure_can_run_parallel_test_fails_iff (q : ParallelismQuery) :
    ((∃ msg, msg ≠ "" ∧ ensure_can_run_parallel_test q = Except.error msg)
        ↔ (q = ParallelismQuery.err ∨ ∃ x, q = ParallelismQuery.ok x ∧ x < 2))
      ∧ (∀ x, 2 ≤ x → q = ParallelismQuery.ok x →
          ensure_can_run_parallel_test q = Except.ok ()) := by
  cases q with
  | ok x =>
    constructor
    · by_cases h : x < 2
      · constructor
        · intro _
          exact Or.inr ⟨x, rfl, h⟩
        · intro _
          exact ⟨"Please run on a system with more than 1 core",
            by decide, by simp [ensure_can_run_parallel_test, h]⟩
      · constructor
        · rintro ⟨msg, -, hmsg⟩
          simp [ensure_can_run_parallel_test, h] at hmsg
        · rintro (hq | ⟨y, hy, hlt⟩)
          · cases hq
          · cases hy
            exact absurd hlt h
    · intro y hy hq
      cases hq
      simp [ensure_can_run_parallel_test, Nat.not_lt.mpr hy]
  | err =>
    constructor
    · constructor
      · intro _
        exact Or.inl rfl
      · intro _
        exact ⟨"Unexpected error. Does your system even have cores?",
          by decide, rfl⟩
    · intro y _ hq
      cases hq

theorem ensure_can_run_parallel_test_fails_iff_witness :
    2 ≤ 4 ∧ ensure_can_run_parallel_test (ParallelismQuery.ok 4) = Except.ok () :=
  ⟨by decide,
    (ensure_can_run_parallel_test_fails_iff (ParallelismQuery.ok 4)).2 4 (by decide) rfl⟩

/-- C8: if any worker's computation of a batch fails (its join observes a
worker panic), the batch fails as a whole — `parallel_calculate` returns no
result sequence at all, in particular no partial sequence of the
already-computed results. -/
theorem worker_failure_aborts_batch (f : Data → Option ComputationResult)
    (data : List Data) (d : Data) (hd : d ∈ data) (hf : f d = none) :
    parallel_calculate_fallible f data = none := by
  rw [parallel_calculate_fallible, collectSlots_eq_none_iff]
  have : f d ∈ fallible_handles f data := List.mem_map_of_mem f hd
  rwa [hf] at this

theorem worker_failure_aborts_batch_witness :
    (Data.mk 2 ∈ [Data.mk 1, Data.mk 2]
        ∧ (fun d : Data => if d.val = 2 then none else some (calculate d))
            (Data.mk 2) = none)
      ∧ parallel_calculate_fallible
          (fun d : Data => if d.val = 2 then none else some (calculate d))
          [Data.mk 1, Data.mk 2] = none :=
  ⟨⟨by decide, by decide⟩,
    worker_failure_aborts_batch _ _ (Data.mk 2) (by decide) (by decide)⟩

/-- C9: `parallel_calculate` is deterministic in its result — for the same
dataset and the same strategy on the same machine, two invocations agree
even when the work-stealing queue realises different claim orders across
the runs. -/
theorem parallel_calculate_deterministic (P : Nat)
    (order₁ order₂ : List (Nat × Data)) (data : List Data) (s : Strategy)
    (h₁ : order₁.Perm (workItems data)) (h₂ : order₂.Perm (workItems data)) :
    parallel_calculate P order₁ data s = parallel_calculate P order₂ data s := by
  cases s with
  | NaiveSpawn => rfl
  | FixedPoolChunked => rfl
  | WorkStealing =>
    show work_stealing_calculate order₁ data.length
      = work_stealing_calculate order₂ data.length
    rw [work_stealing_eq_serial data order₁ h₁, work_stealing_eq_serial data order₂ h₂]

theorem parallel_calculate_deterministic_witness :
    (List.Perm [(0, Data.mk 1), (1, Data.mk 2)] (workItems [Data.mk 1, Data.mk 2])
        ∧ List.Perm [(1, Data.mk 2), (0, Data.mk 1)] (workItems [Data.mk 1, Data.mk 2]))
      ∧ parallel_calculate 2 [(0, Data.mk 1), (1, Data.mk 2)]
          [Data.mk 1, Data.mk 2] Strategy.WorkStealing
        = parallel_calculate 2 [(1, Data.mk 2), (0, Data.mk 1)]
            [Data.mk 1, Data.mk 2] Strategy.WorkStealing :=
  ⟨⟨by decide, by decide⟩,
    parallel_calculate_deterministic 2 _ _ _ _ (by decide) (by decide)⟩

/-- C10: under every thread interleaving in which the consuming loop has
observed the closed-channel error from `recv`, the consumer has received
exactly the values 0,1,...,9 in increasing order and the channel is closed
and drained — end-of-stream is detected deterministically by the `Err`
result of `recv`, never by polling an empty-but-open channel. -/
theorem channel_receives_all_in_order (sched : List Bool)
    (h : (runChannel sched).done = true) :
    (runChannel sched).received = producerSends
      ∧ (runChannel sched).buffered = []
      ∧ (runChannel sched).closed = true := by
  have hinv : ChanInv (runChannel sched) := chanInv_foldl sched chanInit chanInit_inv
  obtain ⟨h1, h2, h3⟩ := hinv
  obtain ⟨hb, hc⟩ := h3 h
  refine ⟨?_, hb, hc⟩
  rw [hb, h2 hc] at h1
  simpa using h1

theorem channel_receives_all_in_order_witness :
    (runChannel (List.replicate 11 true ++ List.replicate 11 false)).done = true
      ∧ (runChannel (List.replicate 11 true ++ List.replicate 11 false)).received
        = producerSends :=
  ⟨by decide,
    (channel_receives_all_in_order (List.replicate 11 true ++ List.replicate 11 false)
      (by decide)).1⟩
